import Mathlib

/-!
Verification of the artisan artifact build-cache
(src/python/artisan/_artifacts.py) against its specification.

The development is a shallow embedding of the two layers the claims are
about:

* the storage tree (`Artifact.__getitem__`, `__setitem__`, `__delitem__`,
  `Artifact.extend` and the I/O helpers `_write_h5`, `_exend_h5`,
  `_copy_file`, `_extend_file`): a directory is an association list from
  file names to nodes; a node is a plain file (byte blob), an HDF5 array
  container, or a subdirectory.  Python `str` keys and path names are
  modeled as `List Char` so that `key.replace("__", ".")` and
  `pathlib.Path.suffix` can be modeled character by character.

* the cache coordinator (`_find_or_build`, `_ensure_built`, `_build`,
  `_new_artifact_path`, `_read_meta`): the configured root directory is a
  list of candidate directories, each carrying its `_meta.yaml` sidecar
  state; build routines are modeled by the entries they write plus an
  optional raised exception.  The busy-wait on `status == 'running'` is
  modeled by a dedicated `blocked` outcome: a status in the model is the
  settled status, and `running` means the code would sit in the poll loop.
-/

namespace Artisan

/-- A Python `str` used as a file name or key, as its list of characters. -/
abbrev Name := List Char

/-- Model of `key.replace("__", ".")` (used by `__getitem__`, `__setitem__`
and `__delitem__`): replaces non-overlapping occurrences of `"__"` left to
right by `"."`. -/
def replaceDunder : Name → Name
  | [] => []
  | [c] => [c]
  | c1 :: c2 :: rest =>
      if c1 = '_' ∧ c2 = '_' then '.' :: replaceDunder rest
      else c1 :: replaceDunder (c2 :: rest)

/-- Whether a key contains the two-character `"__"` marker. -/
def containsDunder : Name → Bool
  | [] => false
  | [_] => false
  | c1 :: c2 :: rest =>
      if c1 = '_' ∧ c2 = '_' then true else containsDunder (c2 :: rest)

/-- Index of the last `'.'` in a name, if any (Python `name.rfind('.')`). -/
def lastDotIdx : Name → Option Nat
  | [] => none
  | c :: rest =>
      match lastDotIdx rest with
      | some j => some (j + 1)
      | none => if c = '.' then some 0 else none

/-- Model of `pathlib.Path.suffix != ''` on a single path component: the
suffix is nonempty iff the index `i` of the last dot satisfies
`0 < i < len(name) - 1`. -/
def pyHasSuffix (cs : Name) : Bool :=
  match lastDotIdx cs with
  | some i => decide (0 < i) && decide (i + 1 < cs.length)
  | none => false

/-- Model of `pathlib.Path.with_suffix(suf)` on a single path component:
replace an existing suffix, otherwise append `suf`. -/
def pyWithSuffix (cs suf : Name) : Name :=
  match lastDotIdx cs with
  | some i => if 0 < i ∧ i + 1 < cs.length then cs.take i ++ suf else cs ++ suf
  | none => cs ++ suf

/-- The reserved array-container extension `".h5"`. -/
def h5ext : Name := ['.', 'h', '5']

/-- Errors surfaced by storage-tree operations (Python exception kinds). -/
inductive ArtErr where
  | assertionError
  | typeError
  | fileNotFoundError
  | isADirectoryError
  | oserror
  | overflowError
  | valueError
deriving DecidableEq

/-- A `numpy` array value: its trailing dimensions `shape[1:]` and its
leading dimension as a list of rows (each row flattened). -/
structure NDArr where
  trail : List Nat
  rows : List (List Int)
deriving DecidableEq

/-- An HDF5 dataset as produced by `_write_h5` (contiguous, `chunkRows =
none`) or `require_dataset` inside `_exend_h5` (chunked, `chunkRows = some
blockRows`): a fixed trailing shape and a resizable leading dimension. -/
structure Dataset where
  trail : List Nat
  rows : List (List Int)
  chunkRows : Option Nat
deriving DecidableEq

/-- One on-disk entry: a plain file of bytes, an HDF5 container file, or a
subdirectory. -/
inductive Node where
  | blob (bytes : List Nat)
  | h5 (dset : Dataset)
  | dir (children : List (Name × Node))

/-- The contents of one artifact directory: file name to node. -/
abbrev Art := List (Name × Node)

/-- Look up the entry stored under a name. -/
def lookupA : Art → Name → Option Node
  | [], _ => none
  | (k, v) :: rest, n => if k = n then some v else lookupA rest n

/-- Store a node under a name (overwriting an existing entry). -/
def putA : Art → Name → Node → Art
  | [], n, v => [(n, v)]
  | (k, w) :: rest, n, v => if k = n then (n, v) :: rest else (k, w) :: putA rest n v

/-- Remove every entry stored under a name. -/
def removeA (a : Art) (n : Name) : Art :=
  a.filter (fun kv => !decide (kv.1 = n))

/-- Model of `shutil.rmtree(path, ignore_errors=True)`: removes a directory
tree; on a plain file it raises `NotADirectoryError` and on a missing path
`FileNotFoundError`, both swallowed by `ignore_errors=True`, so the entry
is left untouched. -/
def rmtreeA (a : Art) (n : Name) : Art :=
  match lookupA a n with
  | some (.dir _) => removeA a n
  | _ => a

/-- A value handed to `__setitem__` / `extend`: an `np.ndarray`, a `Path`
reference to an existing external file (carried with that file's bytes), a
string-keyed mapping, or anything else. -/
inductive Val where
  | arr (nd : NDArr)
  | fileRef (bytes : List Nat)
  | mapping (kvs : List (Name × Val))
  | other

mutual

/-- Nesting depth bound of a value, used as recursion fuel for the
mapping branches of `setGo` / `extendGo`. -/
def valSize : Val → Nat
  | .arr _ => 1
  | .fileRef _ => 1
  | .other => 1
  | .mapping kvs => 1 + valsSize kvs

/-- Summed size of a mapping's items. -/
def valsSize : List (Name × Val) → Nat
  | [] => 0
  | kv :: rest => valSize kv.2 + 1 + valsSize rest

end

/-- Product of a dimension list (`np.prod(val.shape[1:])`; the empty
product is 1, as for `np.prod` of an empty tuple). -/
def listProd : List Nat → Nat
  | [] => 1
  | d :: rest => d * listProd rest

/-- Rows per storage block, `int(np.ceil(2**12 / np.prod(val.shape[1:])))`
from `_exend_h5`.  The source computes this with float64 arithmetic; for
every trailing-dimension product `p ≥ 1` arising from a representable
array shape the float64 result coincides with the exact integer ceiling
(4096 = 2^12 is exactly representable and the quotient `4096 / p` is more
than half an ulp away from every integer it is not equal to), so the model
uses the exact Nat ceiling `(4096 + p - 1) / p`. -/
def rowsPerBlock (p : Nat) : Nat := (2 ^ 12 + p - 1) / p

/-- Model of `_exend_h5` at the dataset level.  `require_dataset` opens the
existing dataset (checking that the shape it would create, `(0, *trail)`,
is compatible; a trailing-shape mismatch fails) or creates an empty
resizable dataset whose chunks hold `rowsPerBlock` rows; then
`dset.resize(dset.len() + len(val), 0)` grows the leading dimension and
`dset[-len(val):] = val` writes the new rows.  When `len(val) = 0` that
slice is `dset[-0:] = dset[0:]`: it selects every row of the dataset, so
writing a 0-row batch onto a dataset that (after the no-op resize) still
has rows fails to broadcast (`TypeError`); onto an empty dataset — in
particular a freshly created one — the 0-row selection matches the 0-row
batch and the write succeeds.  A zero trailing-dimension product makes
the Python chunk computation raise (`int(inf)` overflows), modeled as
`overflowError`. -/
def exend_h5 (existing : Option Dataset) (v : NDArr) : Except ArtErr Dataset :=
  if listProd v.trail = 0 then .error .overflowError
  else
    match existing with
    | none =>
        .ok { trail := v.trail, rows := v.rows,
              chunkRows := some (rowsPerBlock (listProd v.trail)) }
    | some d =>
        if d.trail = v.trail then
          if v.rows.length = 0 ∧ d.rows.length ≠ 0 then .error .typeError
          else .ok { d with rows := d.rows ++ v.rows }
        else .error .typeError

/-- Model of `_copy_file(dst, src)`: `shutil.rmtree(dst,
ignore_errors=True)` then `shutil.copy(src, dst)` — a directory at `dst`
is removed, then the source bytes are written at `dst` (overwriting a
plain file). -/
def copy_file (a : Art) (dst : Name) (src : List Nat) : Art :=
  putA (rmtreeA a dst) dst (.blob src)

/-- Model of `_write_h5(path, val)`: `shutil.rmtree(path,
ignore_errors=True)` removes a directory at `path` (plain files survive
it), the parents are created, then `h5.File(path)` (append mode) and
`create_dataset('data', data=val)`.  On a fresh path this creates a
contiguous dataset holding exactly `val`; a surviving plain file makes
the call fail — `create_dataset` raises on the already-present `'data'`
dataset of an HDF5 file, and opening a non-HDF5 file raises `OSError`. -/
def write_h5 (a : Art) (dst : Name) (v : NDArr) : Except ArtErr Art :=
  match lookupA a dst with
  | some (.blob _) => .error .oserror
  | some (.h5 _) => .error .valueError
  | _ => .ok (putA (rmtreeA a dst) dst
      (.h5 { trail := v.trail, rows := v.rows, chunkRows := none }))

/-- Model of `_extend_file(dst, src)`: `open(dst, 'a+')` appends the
source's contents, creating `dst` if missing.  Appending to a directory
raises `IsADirectoryError`.  Both files are opened in text mode, so the
success path modeled here stands for content that round-trips text
decoding; source bytes that are not valid UTF-8 raise
`UnicodeDecodeError` in the source (no claim exercises this path, and no
theorem in this file uses the success branch).  Text-appending onto an
HDF5 container file would corrupt it as an array container; the model
records that unclaimed corner as an I/O-level fault since `Node.h5`
carries no byte-level view. -/
def extend_file (a : Art) (dst : Name) (src : List Nat) : Except ArtErr Art :=
  match lookupA a dst with
  | none => .ok (putA a dst (.blob src))
  | some (.blob old) => .ok (putA a dst (.blob (old ++ src)))
  | some (.h5 _) => .error .oserror
  | some (.dir _) => .error .isADirectoryError

/-- The result of `__getitem__`: an `ArrayFile` handle read from the given
file name, an `EncodedFile` (the path itself), or a sub-`Artifact` bound
at the given (possibly nonexistent) path. -/
inductive Entry where
  | array (p : Name)
  | file (p : Name)
  | sub (p : Name)
deriving DecidableEq

/-- `Path.is_file()`: true for plain files and for HDF5 container files
(which are plain files on disk), false for directories and missing
paths. -/
def isFileNode : Option Node → Bool
  | some (.blob _) => true
  | some (.h5 _) => true
  | _ => false

/-- Model of `Artifact.__getitem__`: translate the key, then (1) if a file
named `f'{path}.h5'` exists, return an array handle read from
`path.with_suffix('.h5')` (note the two differ when the translated key has
a suffix, faithfully to the source); (2) else if a plain file exists at
the path, return it as an `EncodedFile`; (3) else a sub-`Artifact`. -/
def getItem (a : Art) (key : Name) : Entry :=
  let p := replaceDunder key
  if isFileNode (lookupA a (p ++ h5ext)) then .array (pyWithSuffix p h5ext)
  else if isFileNode (lookupA a p) then .file p
  else .sub p

/-- Model of `Artifact.__setitem__`, fuelled by the nesting depth of the
value (the fuel is `sizeOf v`, which strictly bounds the mapping nesting,
so the fuel-exhausted branch is unreachable from `setItem`).  Arrays:
`assert path.suffix == ''` then `_write_h5(path.with_suffix('.h5'), val)`.
File references: `assert path.suffix != ''` then `_copy_file`.  Mappings:
`assert path.suffix == ''` then each item is written into the
sub-artifact at the translated path (`MutableMapping.update`); the
subdirectory is modeled as created by the nested writes (in the source the
nested `_write_h5` creates parents with `mkdir(parents=True)`; the
unclaimed corner of a bare `_copy_file` into a not-yet-created
subdirectory is modeled as succeeding).  Anything else: `TypeError`. -/
def setGo (fuel : Nat) (a : Art) (key : Name) (v : Val) : Except ArtErr Art :=
  match v with
  | .arr nd =>
      let p := replaceDunder key
      if pyHasSuffix p then .error .assertionError
      else write_h5 a (pyWithSuffix p h5ext) nd
  | .fileRef bs =>
      let p := replaceDunder key
      if pyHasSuffix p then .ok (copy_file a p bs) else .error .assertionError
  | .other => .error .typeError
  | .mapping kvs =>
      let p := replaceDunder key
      if pyHasSuffix p then .error .assertionError
      else
        match fuel with
        | 0 => .error .fileNotFoundError
        | fuel' + 1 =>
            match lookupA a p with
            | some (.blob _) => .error .oserror
            | some (.h5 _) => .error .oserror
            | some (.dir ch) =>
                (kvs.foldlM (fun acc kv => setGo fuel' acc kv.1 kv.2) ch).map
                  (fun ch2 => putA a p (.dir ch2))
            | none =>
                if kvs.isEmpty then .ok a
                else
                  (kvs.foldlM (fun acc kv => setGo fuel' acc kv.1 kv.2) ([] : Art)).map
                    (fun ch2 => putA a p (.dir ch2))

/-- `Artifact.__setitem__`. -/
def setItem (a : Art) (key : Name) (v : Val) : Except ArtErr Art :=
  setGo (valSize v) a key v

/-- Model of `Artifact.__delitem__`: translate the key, then
`shutil.rmtree(path, ignore_errors=True)`. -/
def delItem (a : Art) (key : Name) : Art :=
  rmtreeA a (replaceDunder key)

/-- Model of `Artifact.extend`, fuelled like `setGo`.  The path is
`self.path / key` with the key used verbatim — no `"__"` to `"."`
translation, unlike `__getitem__` / `__setitem__` / `__delitem__`.
Arrays: `assert path.suffix == ''` then `_exend_h5(path, val)` — note the
container lives at the unsuffixed path itself.  Opening a non-HDF5 plain
file as HDF5 raises `OSError`; opening a directory raises
`IsADirectoryError`.  File references: `assert path.suffix != ''` then
`_extend_file`.  Mappings: `assert path.suffix == ''` then each item is
extended through `Artifact(path)`; a nested write below a nonexistent
directory fails (`_exend_h5` and `_extend_file` create no parents). -/
def extendGo (fuel : Nat) (a : Art) (key : Name) (v : Val) : Except ArtErr Art :=
  match v with
  | .arr nd =>
      if pyHasSuffix key then .error .assertionError
      else
        match lookupA a key with
        | none => (exend_h5 none nd).map (fun d => putA a key (.h5 d))
        | some (.h5 d0) => (exend_h5 (some d0) nd).map (fun d => putA a key (.h5 d))
        | some (.blob _) => .error .oserror
        | some (.dir _) => .error .isADirectoryError
  | .fileRef bs =>
      if pyHasSuffix key then extend_file a key bs else .error .assertionError
  | .other => .error .typeError
  | .mapping kvs =>
      if pyHasSuffix key then .error .assertionError
      else
        match fuel with
        | 0 => .error .fileNotFoundError
        | fuel' + 1 =>
            kvs.foldlM
              (fun acc kv =>
                match lookupA acc key with
                | some (.dir ch) =>
                    (extendGo fuel' ch kv.1 kv.2).map (fun ch2 => putA acc key (.dir ch2))
                | none => .error .fileNotFoundError
                | some _ => .error .oserror)
              a

/-- `Artifact.extend`. -/
def extend (a : Art) (key : Name) (v : Val) : Except ArtErr Art :=
  extendGo (valSize v) a key v

/-! ## Cache coordinator -/

/-- A specification: its `"type"` field (used by `_new_artifact_path` to
name fresh directories) and the remaining key-value content.  Two
specifications are equal iff structurally equal. -/
structure Spec where
  type : String
  params : List (String × String)
deriving DecidableEq

/-- Build status recorded in `_meta.yaml`.  The model carries the settled
value: `running` stands for a sidecar that still reads `'running'`, on
which `_ensure_built` busy-waits. -/
inductive Status where
  | running
  | done
  | stopped
deriving DecidableEq

/-- The parsed `_meta.yaml` record `dict(spec=..., status=...)`. -/
structure MetaRec where
  spec : Option Spec
  status : Status
deriving DecidableEq

/-- The on-disk state of an artifact's `_meta.yaml` sidecar: absent
(I/O failure on read), unparsable (the yaml load raises), or parsed. -/
inductive SidecarFile where
  | missing
  | malformed
  | parsed (rec : MetaRec)
deriving DecidableEq

/-- A candidate entry of the root directory: its name and its sidecar
state.  Plain files in the root are covered by `sidecar = .missing`
(reading `file/_meta.yaml` fails, so `_read_meta` falls back). -/
structure Dir where
  name : String
  sidecar : SidecarFile
deriving DecidableEq

/-- Model of `_read_meta`: parse the sidecar; on any failure (missing file
or unparsable content, the bare `except:`) return the permissive fallback
`dict(spec=None, status='done')`.  The function is total: it never
raises. -/
def read_meta : SidecarFile → MetaRec
  | .parsed m => m
  | _ => { spec := none, status := .done }

/-- Why `_ensure_built` raised `FileExistsError`. -/
inductive FEReason where
  | incompatibleSpec
  | stoppedMidBuild
deriving DecidableEq

/-- Observable outcome of `_ensure_built(artifact, spec)` at a path whose
state is `fs` (`none` = the path does not exist). -/
inductive EnsureOutcome where
  | bound
  | fileExistsError (r : FEReason)
  | blocked
  | builds
deriving DecidableEq

/-- Model of `_ensure_built`: if the path exists, reject on spec mismatch
(`FileExistsError "... (incompatible spec)"`), busy-wait while the status
reads `'running'` (modeled as `blocked`), reject a `'stopped'` candidate
(`FileExistsError "... was stopped mid-build."`), and otherwise return,
binding the artifact to the path.  If the path does not exist, `_build` is
invoked (`builds`). -/
def ensure_built (fs : Option Dir) (s : Spec) : EnsureOutcome :=
  match fs with
  | none => .builds
  | some d =>
      if (read_meta d.sidecar).spec = some s then
        match (read_meta d.sidecar).status with
        | .running => .blocked
        | .stopped => .fileExistsError .stoppedMidBuild
        | .done => .bound
      else .fileExistsError .incompatibleSpec

/-- Python `f'{i:04x}'`: lowercase hex, zero-padded to width 4. -/
def hex4 (i : Nat) : String :=
  let ds := Nat.toDigits 16 i
  String.mk (List.replicate (4 - ds.length) '0' ++ ds)

/-- The candidate directory name `f'{spec["type"]}_{date}_{i:04x}'` probed
by `_new_artifact_path`. -/
def candName (typ date : String) (i : Nat) : String :=
  typ ++ "_" ++ date ++ "_" ++ hex4 i

/-- The probe loop of `_new_artifact_path` (`for i in itertools.count()`):
starting at counter `start`, return the first counter whose candidate name
is not among the existing root entries.  The loop is bounded by fuel; with
fuel `names.length + 1` a free counter is always reached when one exists
in that range. -/
def freeCounterFrom (names : List String) (typ date : String) : Nat → Nat → Nat
  | 0, i => i
  | fuel + 1, i =>
      if names.contains (candName typ date i) then freeCounterFrom names typ date fuel (i + 1)
      else i

/-- Model of `_new_artifact_path`: the first non-colliding candidate name.
`date` is `datetime.now().strftime('%Y-%m-%d')`, passed in explicitly.
The function only reads the existing names; it reserves nothing. -/
def new_artifact_path (names : List String) (typ date : String) : String :=
  candName typ date (freeCounterFrom names typ date (names.length + 1) 0)

/-- Observable outcome of `_find_or_build(artifact, spec)`: bound to an
existing candidate without building; stuck busy-waiting on a running
candidate; or performing a fresh `_build` at the named path.  `buildsAt`
is the only outcome that invokes the build routine. -/
inductive FindOutcome where
  | boundTo (name : String)
  | blockedAt (name : String)
  | buildsAt (name : String)
deriving DecidableEq

/-- The scan loop of `_find_or_build`: try `_ensure_built` on each root
entry in order, catching `FileExistsError` and moving on; a success binds
the artifact to that entry.  When every candidate is rejected, a fresh
`_build` happens at `fresh` (the name `_new_artifact_path` returns).  The
`builds` case cannot occur for an existing entry; it is mapped to the same
success return as `bound`. -/
def find_scan (s : Spec) (fresh : String) : List Dir → FindOutcome
  | [] => .buildsAt fresh
  | d :: rest =>
      match ensure_built (some d) s with
      | .bound => .boundTo d.name
      | .blocked => .blockedAt d.name
      | .fileExistsError _ => find_scan s fresh rest
      | .builds => .boundTo d.name

/-- Model of `_find_or_build`: scan the root entries; if all are rejected,
build fresh at the path chosen by `_new_artifact_path` against the same
root listing. -/
def find_or_build (root : List Dir) (s : Spec) (date : String) : FindOutcome :=
  find_scan s (new_artifact_path (root.map Dir.name) s.type date) root

/-- Number of build-routine invocations an outcome performs. -/
def buildInvocations : FindOutcome → Nat
  | .buildsAt _ => 1
  | _ => 0

/-- An exception raised by a build routine, identified abstractly. -/
structure Exn where
  code : Nat
deriving DecidableEq

/-- A build routine, as `_build` observes it: the entries it has written
into the artifact directory up to the moment it returns or raises, and
the exception it raises, if any.  (The source dispatches on
`build.__code__.co_argcount` to decide whether to pass the spec namespace;
that only selects the call shape and is absorbed into this model.) -/
structure Routine where
  writes : List String
  raises : Option Exn

/-- The filesystem state of one artifact path, as `_build` touches it. -/
structure BuildFS where
  dirExists : Bool
  sidecar : SidecarFile
  entries : List String
deriving DecidableEq

/-- Result of `_build`: `path.mkdir(parents=True)` raising
`FileExistsError` on an existing path, or the final state together with
the exception `_build` re-raises. -/
inductive BuildResult where
  | mkdirFailed
  | finished (fs : BuildFS) (raised : Option Exn)
deriving DecidableEq

/-- Model of `_build`: create the directory, write `{spec, 'running'}`,
run the build routine; on normal return overwrite the sidecar with
`{spec, 'done'}` and raise nothing; on any exception overwrite it with
`{spec, 'stopped'}` and re-raise the same exception.  The entries the
routine wrote are kept either way: there is no rollback. -/
def build_run (s : Spec) (r : Routine) (fs : BuildFS) : BuildResult :=
  if fs.dirExists then .mkdirFailed
  else
    let fs1 : BuildFS :=
      { dirExists := true, sidecar := .parsed { spec := some s, status := .running },
        entries := fs.entries ++ r.writes }
    match r.raises with
    | none => .finished { fs1 with sidecar := .parsed { spec := some s, status := .done } } none
    | some e =>
        .finished { fs1 with sidecar := .parsed { spec := some s, status := .stopped } } (some e)


/-! ## Concrete fixtures used by counterexamples and witnesses -/

/-- A demonstration artifact directory with a blob entry, an array entry
(as written by `__setitem__`, at `x.h5`), and a subdirectory entry. -/
def demoArt : Art :=
  [ (['n', 'o', 't', 'e', 's', '.', 't', 'x', 't'], .blob [7, 8]),
    (['x', '.', 'h', '5'], .h5 { trail := [2], rows := [[1, 2]], chunkRows := none }),
    (['s', 'u', 'b'], .dir [(['a', '.', 't', 'x', 't'], .blob [1])]) ]

/-- A concrete specification. -/
def stoppedSpec : Spec := { type := "demo", params := [] }

/-- A root entry whose recorded spec matches `stoppedSpec` and whose
status settled to `'stopped'`. -/
def stoppedDir : Dir :=
  { name := "demo_old", sidecar := .parsed { spec := some stoppedSpec, status := .stopped } }

/-- A concrete specification for the cache-hit witness. -/
def hitSpec : Spec := { type := "fit", params := [("n", "3")] }

/-- A root entry recorded as a completed build of `hitSpec`. -/
def hitDir : Dir :=
  { name := "fit_2026-01-01_0000", sidecar := .parsed { spec := some hitSpec, status := .done } }

/-- A root entry with an unreadable sidecar (rejected during a scan via
the permissive fallback record, whose spec `None` matches nothing). -/
def junkDir : Dir := { name := "junk", sidecar := .malformed }

/-- A build routine that writes two entries and returns normally. -/
def okRoutine : Routine := { writes := ["x.h5", "log.txt"], raises := none }

/-- A build routine that writes one entry and then raises. -/
def badRoutine : Routine := { writes := ["x.h5"], raises := some { code := 17 } }

/-- The state of a not-yet-existing artifact path. -/
def emptyFS : BuildFS := { dirExists := false, sidecar := .missing, entries := [] }

/-- A root entry occupying the first candidate name that
`_new_artifact_path` probes for `stoppedSpec` on 2026-02-03. -/
def probeDir : Dir := { name := "demo_2026-02-03_0000", sidecar := .missing }

/-! ## Key-translation lemmas -/

/-- Unfolding `replaceDunder` past a character that is not `'_'`. -/
theorem replaceDunder_cons_ne (c : Char) (xs : Name) (h : ¬c = '_') :
    replaceDunder (c :: xs) = c :: replaceDunder xs := by
  cases xs with
  | nil => rfl
  | cons x rest =>
      simp only [replaceDunder]
      rw [if_neg (fun hc => h hc.1)]

/-- `replaceDunder` skips over an underscore-free prefix. -/
theorem replaceDunder_append_no_us (xs ys : Name) (h : '_' ∉ xs) :
    replaceDunder (xs ++ ys) = xs ++ replaceDunder ys := by
  induction xs with
  | nil => rfl
  | cons c rest ih =>
      simp only [List.mem_cons, not_or] at h
      rw [List.cons_append, replaceDunder_cons_ne c _ (fun e => h.1 e.symm), ih h.2]
      rfl

/-- `replaceDunder` fixes underscore-free names. -/
theorem replaceDunder_no_us (xs : Name) (h : '_' ∉ xs) : replaceDunder xs = xs := by
  have hx := replaceDunder_append_no_us xs [] h
  have h0 : replaceDunder ([] : Name) = [] := rfl
  rw [h0, List.append_nil] at hx
  exact hx

/-- The `"__"` marker between an underscore-free stem and an
underscore-free extension is rewritten to a dot. -/
theorem replaceDunder_marker (nm ext : Name) (hnm : '_' ∉ nm) (hext : '_' ∉ ext) :
    replaceDunder (nm ++ '_' :: '_' :: ext) = nm ++ '.' :: ext := by
  rw [replaceDunder_append_no_us _ _ hnm]
  have hstep : replaceDunder ('_' :: '_' :: ext) = '.' :: replaceDunder ext := by
    simp [replaceDunder]
  rw [hstep, replaceDunder_no_us ext hext]

/-- Key translation never lengthens a key. -/
theorem replaceDunder_length_le : (xs : Name) → (replaceDunder xs).length ≤ xs.length
  | [] => by simp [replaceDunder]
  | [c] => by simp [replaceDunder]
  | c1 :: c2 :: rest => by
      simp only [replaceDunder]
      split
      · have := replaceDunder_length_le rest
        simp only [List.length_cons]
        omega
      · have := replaceDunder_length_le (c2 :: rest)
        simp only [List.length_cons] at this ⊢
        omega

/-- Key translation strictly shortens a key containing the marker. -/
theorem replaceDunder_length_lt :
    (xs : Name) → containsDunder xs = true → (replaceDunder xs).length < xs.length
  | [], h => by simp [containsDunder] at h
  | [c], h => by simp [containsDunder] at h
  | c1 :: c2 :: rest, h => by
      simp only [containsDunder] at h
      simp only [replaceDunder]
      by_cases hc : c1 = '_' ∧ c2 = '_'
      · rw [if_pos hc]
        have := replaceDunder_length_le rest
        simp only [List.length_cons]
        omega
      · rw [if_neg hc]
        rw [if_neg hc] at h
        have := replaceDunder_length_lt (c2 :: rest) h
        simp only [List.length_cons] at this ⊢
        omega

/-- A dot-free name has no last dot. -/
theorem lastDotIdx_no_dot (xs : Name) (h : '.' ∉ xs) : lastDotIdx xs = none := by
  induction xs with
  | nil => rfl
  | cons c rest ih =>
      simp only [List.mem_cons, not_or] at h
      simp only [lastDotIdx, ih h.2]
      rw [if_neg (fun e => h.1 e.symm)]

/-- The last dot of `nm ++ "." ++ ext` with a dot-free `ext` sits at index
`nm.length`. -/
theorem lastDotIdx_append_dot (nm ext : Name) (hext : '.' ∉ ext) :
    lastDotIdx (nm ++ '.' :: ext) = some nm.length := by
  induction nm with
  | nil =>
      simp only [List.nil_append, lastDotIdx, lastDotIdx_no_dot ext hext, List.length_nil]
      rfl
  | cons c rest ih =>
      simp only [List.cons_append, lastDotIdx, List.append_eq, ih, List.length_cons]

/-- A dot-free name has an empty Python suffix. -/
theorem pyHasSuffix_no_dot (xs : Name) (h : '.' ∉ xs) : pyHasSuffix xs = false := by
  simp only [pyHasSuffix, lastDotIdx_no_dot xs h]

/-- `nm ++ "." ++ ext` has a nonempty Python suffix when the stem and the
extension are nonempty and the extension is dot-free. -/
theorem pyHasSuffix_dotted (nm ext : Name) (hnm : nm ≠ []) (hext : ext ≠ [])
    (hdot : '.' ∉ ext) : pyHasSuffix (nm ++ '.' :: ext) = true := by
  have h1 : 0 < nm.length := List.length_pos.mpr hnm
  have h2 : 0 < ext.length := List.length_pos.mpr hext
  simp only [pyHasSuffix, lastDotIdx_append_dot nm ext hdot, Bool.and_eq_true,
    decide_eq_true_eq, List.length_append, List.length_cons]
  omega

/-! ## Association-list lemmas -/

/-- Looking up the name just stored. -/
theorem lookupA_putA_self (a : Art) (n : Name) (v : Node) :
    lookupA (putA a n v) n = some v := by
  induction a with
  | nil => simp [putA, lookupA]
  | cons kv rest ih =>
      obtain ⟨k, w⟩ := kv
      by_cases hk : k = n
      · subst hk
        simp [putA, lookupA]
      · simp [putA, lookupA, hk, ih]

/-- Storing under one name leaves other lookups unchanged. -/
theorem lookupA_putA_ne (a : Art) (n m : Name) (v : Node) (h : m ≠ n) :
    lookupA (putA a n v) m = lookupA a m := by
  have hnm : ¬n = m := fun e => h e.symm
  induction a with
  | nil => simp [putA, lookupA, hnm]
  | cons kv rest ih =>
      obtain ⟨k, w⟩ := kv
      by_cases hk : k = n
      · subst hk
        simp [putA, lookupA, hnm]
      · simp [putA, lookupA, hk, ih]

/-- Removing one name leaves other lookups unchanged. -/
theorem lookupA_removeA_ne (a : Art) (n m : Name) (h : m ≠ n) :
    lookupA (removeA a n) m = lookupA a m := by
  induction a with
  | nil => rfl
  | cons kv rest ih =>
      obtain ⟨k, w⟩ := kv
      by_cases hk : k = n
      · subst hk
        have hkm : ¬k = m := fun e => h e.symm
        have hhead : removeA ((k, w) :: rest) k = removeA rest k := by
          simp [removeA, List.filter_cons]
        rw [hhead, ih]
        simp [lookupA, hkm]
      · have hhead : removeA ((k, w) :: rest) n = (k, w) :: removeA rest n := by
          simp [removeA, List.filter_cons, hk]
        rw [hhead]
        simp only [lookupA]
        by_cases hm : k = m
        · simp [hm]
        · simp [hm, ih]

/-- `rmtree` on one name leaves other lookups unchanged. -/
theorem lookupA_rmtreeA_ne (a : Art) (n m : Name) (h : m ≠ n) :
    lookupA (rmtreeA a n) m = lookupA a m := by
  unfold rmtreeA
  cases hnode : lookupA a n with
  | none => rfl
  | some node =>
      cases node with
      | blob bs => rfl
      | h5 d => rfl
      | dir ch => exact lookupA_removeA_ne a n m h

/-! ## Coordinator lemmas -/

/-- `_ensure_built` succeeds exactly on a spec-matching candidate whose
settled status is `'done'`. -/
theorem ensure_built_bound (d : Dir) (s : Spec)
    (hspec : (read_meta d.sidecar).spec = some s)
    (hst : (read_meta d.sidecar).status = .done) :
    ensure_built (some d) s = .bound := by
  simp [ensure_built, hspec, hst]

/-- `_ensure_built` raises the terminal stop error on a spec-matching
candidate whose settled status is `'stopped'`. -/
theorem ensure_built_stopped (d : Dir) (s : Spec)
    (hspec : (read_meta d.sidecar).spec = some s)
    (hst : (read_meta d.sidecar).status = .stopped) :
    ensure_built (some d) s = .fileExistsError .stoppedMidBuild := by
  simp [ensure_built, hspec, hst]

/-- `_ensure_built` rejects a candidate whose recorded spec differs. -/
theorem ensure_built_mismatch (d : Dir) (s : Spec)
    (hspec : (read_meta d.sidecar).spec ≠ some s) :
    ensure_built (some d) s = .fileExistsError .incompatibleSpec := by
  simp [ensure_built, hspec]

/-- `_ensure_built` never builds at an existing path. -/
theorem ensure_built_some_ne_builds (d : Dir) (s : Spec) :
    ensure_built (some d) s ≠ .builds := by
  simp only [ensure_built]
  split
  · split <;> simp
  · simp

/-- When every candidate raises `FileExistsError`, the scan falls through
to a fresh build at the precomputed path. -/
theorem find_scan_all_rejected (s : Spec) (fresh : String) :
    ∀ l : List Dir, (∀ d ∈ l, ∃ r, ensure_built (some d) s = .fileExistsError r) →
      find_scan s fresh l = .buildsAt fresh := by
  intro l
  induction l with
  | nil => intro _; rfl
  | cons d rest ih =>
      intro h
      obtain ⟨r, hr⟩ := h d (List.mem_cons_self d rest)
      simp only [find_scan, hr]
      exact ih (fun d' hd' => h d' (List.mem_cons_of_mem _ hd'))

/-- When no spec-matching candidate is still running and some candidate
matches with status `'done'`, the scan binds to such a candidate. -/
theorem find_scan_hit (s : Spec) (fresh : String) :
    ∀ l : List Dir,
      (∀ d ∈ l, ¬((read_meta d.sidecar).spec = some s ∧
                  (read_meta d.sidecar).status = .running)) →
      (∃ d ∈ l, (read_meta d.sidecar).spec = some s ∧
                (read_meta d.sidecar).status = .done) →
      ∃ d ∈ l, (read_meta d.sidecar).spec = some s ∧
               (read_meta d.sidecar).status = .done ∧
               find_scan s fresh l = .boundTo d.name := by
  intro l
  induction l with
  | nil =>
      rintro _ ⟨d, hd, _⟩
      exact absurd hd (List.not_mem_nil d)
  | cons d0 rest ih =>
      intro hnorun hhit
      by_cases hspec : (read_meta d0.sidecar).spec = some s
      · cases hst : (read_meta d0.sidecar).status with
        | running => exact absurd ⟨hspec, hst⟩ (hnorun d0 (List.mem_cons_self d0 rest))
        | done =>
            refine ⟨d0, List.mem_cons_self d0 rest, hspec, hst, ?_⟩
            simp only [find_scan, ensure_built_bound d0 s hspec hst]
        | stopped =>
            have hrest : ∃ d ∈ rest, (read_meta d.sidecar).spec = some s ∧
                (read_meta d.sidecar).status = .done := by
              obtain ⟨d, hd, hds, hdd⟩ := hhit
              rcases List.mem_cons.mp hd with rfl | hd'
              · rw [hst] at hdd
                exact absurd hdd (by simp)
              · exact ⟨d, hd', hds, hdd⟩
            obtain ⟨d, hd, hds, hdd, heq⟩ :=
              ih (fun d' hd' => hnorun d' (List.mem_cons_of_mem _ hd')) hrest
            refine ⟨d, List.mem_cons_of_mem _ hd, hds, hdd, ?_⟩
            simp only [find_scan, ensure_built_stopped d0 s hspec hst]
            exact heq
      · have hrest : ∃ d ∈ rest, (read_meta d.sidecar).spec = some s ∧
            (read_meta d.sidecar).status = .done := by
          obtain ⟨d, hd, hds, hdd⟩ := hhit
          rcases List.mem_cons.mp hd with rfl | hd'
          · exact absurd hds hspec
          · exact ⟨d, hd', hds, hdd⟩
        obtain ⟨d, hd, hds, hdd, heq⟩ :=
          ih (fun d' hd' => hnorun d' (List.mem_cons_of_mem _ hd')) hrest
        refine ⟨d, List.mem_cons_of_mem _ hd, hds, hdd, ?_⟩
        simp only [find_scan, ensure_built_mismatch d0 s hspec]
        exact heq

/-- Correctness of the bounded probe loop: whenever a free counter exists
within the fuel, the loop returns the least free counter at or above the
start. -/
theorem freeCounterFrom_spec (names : List String) (typ date : String) :
    ∀ (fuel start : Nat),
      (∃ k, k < fuel ∧ names.contains (candName typ date (start + k)) = false) →
      names.contains (candName typ date (freeCounterFrom names typ date fuel start)) = false ∧
      start ≤ freeCounterFrom names typ date fuel start ∧
      ∀ j, start ≤ j → j < freeCounterFrom names typ date fuel start →
        names.contains (candName typ date j) = true := by
  intro fuel
  induction fuel with
  | zero =>
      rintro start ⟨k, hk, _⟩
      omega
  | succ fuel ih =>
      rintro start ⟨k, hk, hfree⟩
      by_cases hc : names.contains (candName typ date start) = true
      · have hk0 : k ≠ 0 := by
          intro h0
          rw [h0, Nat.add_zero] at hfree
          rw [hc] at hfree
          simp at hfree
        have hnext : ∃ k', k' < fuel ∧
            names.contains (candName typ date (start + 1 + k')) = false := by
          refine ⟨k - 1, by omega, ?_⟩
          have harith : start + 1 + (k - 1) = start + k := by omega
          rw [harith]
          exact hfree
        obtain ⟨h1, h2, h3⟩ := ih (start + 1) hnext
        have hstep : freeCounterFrom names typ date (fuel + 1) start =
            freeCounterFrom names typ date fuel (start + 1) := by
          simp only [freeCounterFrom, hc, if_true]
        refine ⟨by rw [hstep]; exact h1, by rw [hstep]; omega, ?_⟩
        intro j hj1 hj2
        rw [hstep] at hj2
        by_cases hj : j = start
        · rw [hj]; exact hc
        · exact h3 j (by omega) hj2
      · have hc' : names.contains (candName typ date start) = false := by
          cases h : names.contains (candName typ date start)
          · rfl
          · exact absurd h hc
        have hstep : freeCounterFrom names typ date (fuel + 1) start = start := by
          simp only [freeCounterFrom, hc', Bool.false_eq_true, if_false]
        refine ⟨by rw [hstep]; exact hc', by omega, ?_⟩
        intro j hj1 hj2
        rw [hstep] at hj2
        omega

/-- The chunk size is the exact integer ceiling of `4096 / p`: the least
row count whose block holds at least 4096 elements. -/
theorem rowsPerBlock_spec (p : Nat) (hp : 0 < p) :
    2 ^ 12 ≤ rowsPerBlock p * p ∧ ∀ m, 2 ^ 12 ≤ m * p → rowsPerBlock p ≤ m := by
  constructor
  · have h1 := Nat.div_add_mod (2 ^ 12 + p - 1) p
    have h2 := Nat.mod_lt (2 ^ 12 + p - 1) hp
    unfold rowsPerBlock
    rw [Nat.mul_comm]
    omega
  · intro m hm
    have hlt : rowsPerBlock p < m + 1 := by
      unfold rowsPerBlock
      rw [Nat.div_lt_iff_lt_mul hp]
      have hmul : (m + 1) * p = m * p + p := by ring
      omega
    omega

/-! ## Claim theorems -/

/-- Claim C1, counterexample: with a root whose only candidate records the
requested spec with settled status `'stopped'`, `construct(S)` via
`_find_or_build` does not fail with a terminal build-aborted error — the
`FileExistsError` raised for the stopped candidate is caught by the scan
loop exactly like a spec mismatch, and a fresh build is performed at a
newly allocated path.  (The explicit-path flavor, `_ensure_built`, does
raise the terminal error, as the first conjunct records.) -/
theorem c1_counterexample :
    ensure_built (some stoppedDir) stoppedSpec = .fileExistsError .stoppedMidBuild ∧
    find_or_build [stoppedDir] stoppedSpec "2026-10-12" = .buildsAt "demo_2026-10-12_0000" := by
  exact ⟨by decide, by decide⟩

/-- Claim C1 (amended): a candidate whose recorded spec equals the
requested spec `S` and whose settled status is `'stopped'` makes
`construct(path, S)` with that explicit path fail with the terminal
`FileExistsError "... was stopped mid-build."`, and the stopped directory
itself is never rebuilt; but under `construct(S)`'s root scan that error
is caught like a spec mismatch, so when every candidate either mismatches
or is stopped, the scan performs a fresh build at the newly allocated
path instead of failing. -/
theorem c1_stopped_candidate (d : Dir) (S : Spec)
    (h : read_meta d.sidecar = { spec := some S, status := .stopped }) :
    ensure_built (some d) S = .fileExistsError .stoppedMidBuild ∧
    ∀ (root : List Dir) (date : String),
      (∀ d' ∈ root, (read_meta d'.sidecar).spec ≠ some S ∨
                    (read_meta d'.sidecar).status = .stopped) →
      find_or_build root S date =
        .buildsAt (new_artifact_path (root.map Dir.name) S.type date) := by
  constructor
  · exact ensure_built_stopped d S (by rw [h]) (by rw [h])
  · intro root date hrej
    have hall : ∀ d' ∈ root, ∃ r, ensure_built (some d') S = .fileExistsError r := by
      intro d' hd'
      rcases hrej d' hd' with hne | hst
      · exact ⟨.incompatibleSpec, ensure_built_mismatch d' S hne⟩
      · by_cases hsp : (read_meta d'.sidecar).spec = some S
        · exact ⟨.stoppedMidBuild, ensure_built_stopped d' S hsp hst⟩
        · exact ⟨.incompatibleSpec, ensure_built_mismatch d' S hsp⟩
    unfold find_or_build
    exact find_scan_all_rejected S _ root hall

/-- Witness for C1's amended theorem at a concrete stopped candidate. -/
theorem c1_witness :
    read_meta stoppedDir.sidecar = { spec := some stoppedSpec, status := .stopped } ∧
    (∀ d' ∈ [stoppedDir], (read_meta d'.sidecar).spec ≠ some stoppedSpec ∨
        (read_meta d'.sidecar).status = .stopped) ∧
    ensure_built (some stoppedDir) stoppedSpec = .fileExistsError .stoppedMidBuild ∧
    find_or_build [stoppedDir] stoppedSpec "2026-01-01" =
      .buildsAt (new_artifact_path ([stoppedDir].map Dir.name) stoppedSpec.type "2026-01-01") := by
  refine ⟨by decide, by decide, ?_, ?_⟩
  · exact (c1_stopped_candidate stoppedDir stoppedSpec (by decide)).1
  · exact (c1_stopped_candidate stoppedDir stoppedSpec (by decide)).2
      [stoppedDir] "2026-01-01" (by decide)

/-- Claim C2 (code bug), evaluated at the failing input: `delete(key)`
only ever removes directory-backed entries.  On the blob entry
`notes.txt` (key `notes__txt`) `shutil.rmtree` hits `NotADirectoryError`,
swallowed by `ignore_errors=True`, so the file survives; on the array
entry at key `x` the translated path `x` does not even name the container
file `x.h5`, so the container survives; a nested artifact directory is
removed; and deleting an absent key does not fail and leaves every
sibling untouched (that half of the claim holds). -/
theorem c2_delete_code_bug :
    delItem demoArt ['n', 'o', 't', 'e', 's', '_', '_', 't', 'x', 't'] = demoArt ∧
    delItem demoArt ['x'] = demoArt ∧
    delItem demoArt ['s', 'u', 'b'] =
      [ (['n', 'o', 't', 'e', 's', '.', 't', 'x', 't'], .blob [7, 8]),
        (['x', '.', 'h', '5'], .h5 { trail := [2], rows := [[1, 2]], chunkRows := none }) ] ∧
    delItem demoArt ['m', 'i', 's', 's', 'i', 'n', 'g'] = demoArt := by
  exact ⟨rfl, rfl, rfl, rfl⟩

/-- Claim C3: when the root holds a candidate recorded as
`{spec = S, status = 'done'}` and no spec-`S` candidate is still running,
`construct(S)` binds the artifact to such a candidate and invokes the
build routine zero times — in particular, a second sequential
`construct(S)` after a successful build performs no further build. -/
theorem c3_cache_hit (root : List Dir) (S : Spec) (date : String)
    (hnorun : ∀ d ∈ root, ¬((read_meta d.sidecar).spec = some S ∧
        (read_meta d.sidecar).status = .running))
    (hhit : ∃ d ∈ root, (read_meta d.sidecar).spec = some S ∧
        (read_meta d.sidecar).status = .done) :
    ∃ d ∈ root, (read_meta d.sidecar).spec = some S ∧
      (read_meta d.sidecar).status = .done ∧
      find_or_build root S date = .boundTo d.name ∧
      buildInvocations (find_or_build root S date) = 0 := by
  obtain ⟨d, hd, hds, hdd, heq⟩ :=
    find_scan_hit S (new_artifact_path (root.map Dir.name) S.type date) root hnorun hhit
  have heq' : find_or_build root S date = .boundTo d.name := heq
  exact ⟨d, hd, hds, hdd, heq', by simp [heq', buildInvocations]⟩

/-- Witness for C3: a scan past a rejected foreign entry binds to the
completed matching directory with zero build invocations. -/
theorem c3_witness :
    (∀ d ∈ [junkDir, hitDir], ¬((read_meta d.sidecar).spec = some hitSpec ∧
        (read_meta d.sidecar).status = .running)) ∧
    (∃ d ∈ [junkDir, hitDir], (read_meta d.sidecar).spec = some hitSpec ∧
        (read_meta d.sidecar).status = .done) ∧
    ∃ d ∈ [junkDir, hitDir], (read_meta d.sidecar).spec = some hitSpec ∧
      (read_meta d.sidecar).status = .done ∧
      find_or_build [junkDir, hitDir] hitSpec "2026-01-02" = .boundTo d.name ∧
      buildInvocations (find_or_build [junkDir, hitDir] hitSpec "2026-01-02") = 0 := by
  refine ⟨by decide, by decide, ?_⟩
  exact c3_cache_hit [junkDir, hitDir] hitSpec "2026-01-02" (by decide) (by decide)

/-- Claim C4: a fresh `_build` with spec `S` writes the sidecar
`{spec = S, status = 'done'}` when the routine returns normally; on any
exception it writes `{spec = S, status = 'stopped'}`, re-raises the
identical exception, and keeps every entry the routine wrote — no
rollback in either case. -/
theorem c4_build_meta (S : Spec) (r : Routine) (fs : BuildFS)
    (hdir : fs.dirExists = false) :
    (r.raises = none →
      build_run S r fs = .finished
        { dirExists := true, sidecar := .parsed { spec := some S, status := .done },
          entries := fs.entries ++ r.writes } none) ∧
    (∀ e, r.raises = some e →
      build_run S r fs = .finished
        { dirExists := true, sidecar := .parsed { spec := some S, status := .stopped },
          entries := fs.entries ++ r.writes } (some e)) := by
  constructor
  · intro hnone
    simp [build_run, hdir, hnone]
  · intro e he
    simp [build_run, hdir, he]

/-- Witness for C4 with one normally returning and one raising routine. -/
theorem c4_witness :
    emptyFS.dirExists = false ∧
    build_run stoppedSpec okRoutine emptyFS = .finished
      { dirExists := true, sidecar := .parsed { spec := some stoppedSpec, status := .done },
        entries := ["x.h5", "log.txt"] } none ∧
    build_run stoppedSpec badRoutine emptyFS = .finished
      { dirExists := true, sidecar := .parsed { spec := some stoppedSpec, status := .stopped },
        entries := ["x.h5"] } (some { code := 17 }) := by
  refine ⟨rfl, ?_, ?_⟩
  · exact (c4_build_meta stoppedSpec okRoutine emptyFS rfl).1 rfl
  · exact (c4_build_meta stoppedSpec badRoutine emptyFS rfl).2 { code := 17 } rfl

/-- Claim C5, counterexample: the appended batch is not arbitrary — after
storing one row under key `t`, extending with the empty batch of the same
trailing shape does not yield `concat(rows1, [])`: `_exend_h5`'s tail
write `dset[-0:] = val` selects the whole (still nonempty) dataset and
the 0-row write fails to broadcast, raising `TypeError`. -/
theorem c5_counterexample :
    extend [] ['t'] (.arr { trail := [2], rows := [[1, 2]] }) =
      .ok [(['t'], .h5 { trail := [2], rows := [[1, 2]], chunkRows := some 2048 })] ∧
    extend [(['t'], .h5 { trail := [2], rows := [[1, 2]], chunkRows := some 2048 })]
      ['t'] (.arr { trail := [2], rows := [] }) = .error .typeError := by
  exact ⟨rfl, rfl⟩

/-- Claim C5 (amended): extending an absent array entry with `rows1` and
then with `rows2` of matching trailing shape stores a container whose
contents are the concatenation of `rows1` and `rows2` along the leading
dimension, provided `rows2` is only empty when `rows1` also is —
appending an empty batch onto a nonempty container instead raises in
`_exend_h5` (`dset[-0:]` selects every row and the 0-row write does not
broadcast); and in general `_exend_h5` on an existing container appends
exactly the batch's rows at the tail under the same proviso. -/
theorem c5_append_roundtrip (a : Art) (key : Name) (r1 r2 : NDArr)
    (hsuf : pyHasSuffix key = false) (habs : lookupA a key = none)
    (htr : r2.trail = r1.trail) (hp : listProd r1.trail ≠ 0)
    (hne : r2.rows = [] → r1.rows = []) :
    (∃ a1 a2 d, extend a key (.arr r1) = .ok a1 ∧
      extend a1 key (.arr r2) = .ok a2 ∧
      lookupA a2 key = some (.h5 d) ∧
      d.rows = r1.rows ++ r2.rows ∧ d.trail = r1.trail) ∧
    ∀ (d : Dataset) (v : NDArr), d.trail = v.trail → listProd v.trail ≠ 0 →
      (v.rows = [] → d.rows = []) →
      exend_h5 (some d) v = .ok { d with rows := d.rows ++ v.rows } := by
  have hgen : ∀ (d : Dataset) (v : NDArr), d.trail = v.trail → listProd v.trail ≠ 0 →
      (v.rows = [] → d.rows = []) →
      exend_h5 (some d) v = .ok { d with rows := d.rows ++ v.rows } := by
    intro d v hdv hpv hev
    have hcond : ¬(v.rows.length = 0 ∧ d.rows.length ≠ 0) := by
      rintro ⟨h0, hdne⟩
      apply hdne
      rw [hev (List.length_eq_zero.mp h0)]
      exact List.length_nil
    unfold exend_h5
    rw [if_neg hpv]
    show (if d.trail = v.trail then
        if v.rows.length = 0 ∧ d.rows.length ≠ 0 then (.error .typeError : Except ArtErr Dataset)
        else .ok { d with rows := d.rows ++ v.rows }
      else .error .typeError) = .ok { d with rows := d.rows ++ v.rows }
    rw [if_pos hdv, if_neg hcond]
  refine ⟨?_, hgen⟩
  have hp2 : listProd r2.trail ≠ 0 := by rw [htr]; exact hp
  set d1 : Dataset :=
    { trail := r1.trail, rows := r1.rows,
      chunkRows := some (rowsPerBlock (listProd r1.trail)) } with hd1
  have h1 : extend a key (.arr r1) = .ok (putA a key (.h5 d1)) := by
    simp [extend, extendGo, hsuf, habs, exend_h5, hp, hd1, Except.map]
  have hl1 : lookupA (putA a key (.h5 d1)) key = some (.h5 d1) :=
    lookupA_putA_self a key (.h5 d1)
  have hstep : exend_h5 (some d1) r2 = .ok { d1 with rows := d1.rows ++ r2.rows } :=
    hgen d1 r2 (by rw [hd1, htr]) hp2 (fun h => by rw [hd1]; exact hne h)
  have h2 : extend (putA a key (.h5 d1)) key (.arr r2) =
      .ok (putA (putA a key (.h5 d1)) key (.h5 { d1 with rows := d1.rows ++ r2.rows })) := by
    simp [extend, extendGo, hsuf, hl1, hstep, Except.map]
  refine ⟨putA a key (.h5 d1),
    putA (putA a key (.h5 d1)) key (.h5 { d1 with rows := d1.rows ++ r2.rows }),
    { d1 with rows := d1.rows ++ r2.rows }, h1, h2, lookupA_putA_self _ _ _, ?_, ?_⟩
  · rw [hd1]
  · rw [hd1]

/-- Witness for C5 with two concrete nonempty row batches of trailing
shape `[2]`. -/
theorem c5_witness :
    ∃ a1 a2 d,
      extend [] ['t', 'a', 'b'] (.arr { trail := [2], rows := [[1, 2], [3, 4]] }) = .ok a1 ∧
      extend a1 ['t', 'a', 'b'] (.arr { trail := [2], rows := [[5, 6]] }) = .ok a2 ∧
      lookupA a2 ['t', 'a', 'b'] = some (.h5 d) ∧
      d.rows = [[1, 2], [3, 4], [5, 6]] ∧ d.trail = [2] := by
  obtain ⟨⟨a1, a2, d, h1, h2, h3, h4, h5⟩, _⟩ :=
    c5_append_roundtrip [] ['t', 'a', 'b'] { trail := [2], rows := [[1, 2], [3, 4]] }
      { trail := [2], rows := [[5, 6]] } (by decide) rfl rfl (by decide)
      (fun h => absurd h (by decide))
  exact ⟨a1, a2, d, h1, h2, h3, by simpa using h4, h5⟩

/-- Claim C6: `set("name__ext", fileref)` stores the referenced file's
bytes under the on-disk name `name.ext` (the `"__"` marker becomes the
extension dot), and a subsequent `get("name__ext")` returns a blob entry
backed by exactly those bytes.  The cleanliness hypothesis rules out an
unrelated pre-existing sibling file `name.ext.h5`, which `__getitem__`
would inspect first. -/
theorem c6_roundtrip (a : Art) (nm ext : Name) (bs : List Nat)
    (hnm0 : nm ≠ []) (hext0 : ext ≠ [])
    (hnmu : '_' ∉ nm) (hextu : '_' ∉ ext) (hextd : '.' ∉ ext)
    (hclean : isFileNode (lookupA a ((nm ++ '.' :: ext) ++ h5ext)) = false) :
    ∃ a', setItem a (nm ++ '_' :: '_' :: ext) (.fileRef bs) = .ok a' ∧
      lookupA a' (nm ++ '.' :: ext) = some (.blob bs) ∧
      getItem a' (nm ++ '_' :: '_' :: ext) = .file (nm ++ '.' :: ext) := by
  have hrd : replaceDunder (nm ++ '_' :: '_' :: ext) = nm ++ '.' :: ext :=
    replaceDunder_marker nm ext hnmu hextu
  have hsuf : pyHasSuffix (nm ++ '.' :: ext) = true :=
    pyHasSuffix_dotted nm ext hnm0 hext0 hextd
  have hne : (nm ++ '.' :: ext) ++ h5ext ≠ nm ++ '.' :: ext := by
    intro he
    have := congrArg List.length he
    simp [h5ext] at this
  refine ⟨putA (rmtreeA a (nm ++ '.' :: ext)) (nm ++ '.' :: ext) (.blob bs), ?_, ?_, ?_⟩
  · simp [setItem, setGo, hrd, hsuf, copy_file]
  · exact lookupA_putA_self _ _ _
  · have hlook2 : lookupA (putA (rmtreeA a (nm ++ '.' :: ext)) (nm ++ '.' :: ext) (.blob bs))
        ((nm ++ '.' :: ext) ++ h5ext) = lookupA a ((nm ++ '.' :: ext) ++ h5ext) := by
      rw [lookupA_putA_ne _ _ _ _ hne, lookupA_rmtreeA_ne _ _ _ hne]
    simp only [getItem, hrd]
    rw [hlook2, hclean]
    simp only [Bool.false_eq_true, if_false]
    rw [lookupA_putA_self]
    simp [isFileNode]

/-- Witness for C6: the round trip for key `note__txt` on an empty
artifact directory. -/
theorem c6_witness :
    ∃ a', setItem [] (['n', 'o', 't', 'e'] ++ '_' :: '_' :: ['t', 'x', 't'])
        (.fileRef [1, 2, 3]) = .ok a' ∧
      lookupA a' (['n', 'o', 't', 'e'] ++ '.' :: ['t', 'x', 't']) = some (.blob [1, 2, 3]) ∧
      getItem a' (['n', 'o', 't', 'e'] ++ '_' :: '_' :: ['t', 'x', 't']) =
        .file (['n', 'o', 't', 'e'] ++ '.' :: ['t', 'x', 't']) :=
  c6_roundtrip [] ['n', 'o', 't', 'e'] ['t', 'x', 't'] [1, 2, 3]
    (by decide) (by decide) (by decide) (by decide) (by decide) (by decide)

/-- Claim C7: when every scanned candidate is rejected, `_find_or_build`
performs the fresh build at `{type}_{date}_{counter}` where the counter
is the least non-negative integer whose candidate name is not already
present among the root entries; `_new_artifact_path` itself only reads
the existing names (the chosen name is still absent — nothing is
reserved). -/
theorem c7_new_path (root : List Dir) (S : Spec) (date : String)
    (hrej : ∀ d ∈ root, ensure_built (some d) S ≠ .bound ∧
        ensure_built (some d) S ≠ .blocked)
    (hfree : ∃ i, i ≤ root.length ∧
        (root.map Dir.name).contains (candName S.type date i) = false) :
    ∃ c, find_or_build root S date = .buildsAt (candName S.type date c) ∧
      (root.map Dir.name).contains (candName S.type date c) = false ∧
      ∀ j, j < c → (root.map Dir.name).contains (candName S.type date j) = true := by
  have hall : ∀ d ∈ root, ∃ r, ensure_built (some d) S = .fileExistsError r := by
    intro d hd
    obtain ⟨hb, hbl⟩ := hrej d hd
    cases he : ensure_built (some d) S with
    | bound => exact absurd he hb
    | blocked => exact absurd he hbl
    | builds => exact absurd he (ensure_built_some_ne_builds d S)
    | fileExistsError r => exact ⟨r, rfl⟩
  obtain ⟨i, hi, hicontains⟩ := hfree
  have hlen : (root.map Dir.name).length = root.length := List.length_map _ _
  have hex : ∃ k, k < (root.map Dir.name).length + 1 ∧
      (root.map Dir.name).contains (candName S.type date (0 + k)) = false := by
    exact ⟨i, by omega, by simpa using hicontains⟩
  obtain ⟨h1, h2, h3⟩ :=
    freeCounterFrom_spec (root.map Dir.name) S.type date ((root.map Dir.name).length + 1) 0 hex
  refine ⟨freeCounterFrom (root.map Dir.name) S.type date ((root.map Dir.name).length + 1) 0,
    ?_, h1, fun j hj => h3 j (Nat.zero_le j) hj⟩
  unfold find_or_build
  exact find_scan_all_rejected S _ root hall

/-- Witness for C7: the first probed name is occupied, so the counter
settles at 1. -/
theorem c7_witness :
    (∀ d ∈ [probeDir], ensure_built (some d) stoppedSpec ≠ .bound ∧
        ensure_built (some d) stoppedSpec ≠ .blocked) ∧
    (∃ i, i ≤ [probeDir].length ∧
        ([probeDir].map Dir.name).contains (candName stoppedSpec.type "2026-02-03" i) = false) ∧
    ∃ c, find_or_build [probeDir] stoppedSpec "2026-02-03" =
        .buildsAt (candName stoppedSpec.type "2026-02-03" c) ∧
      ([probeDir].map Dir.name).contains (candName stoppedSpec.type "2026-02-03" c) = false ∧
      ∀ j, j < c →
        ([probeDir].map Dir.name).contains (candName stoppedSpec.type "2026-02-03" j) = true := by
  refine ⟨by decide, ⟨1, by decide, by decide⟩, ?_⟩
  exact c7_new_path [probeDir] stoppedSpec "2026-02-03" (by decide) ⟨1, by decide, by decide⟩

/-- Claim C8: reading the metadata sidecar returns the parsed record, and
on any I/O failure (missing file) or parse failure (malformed content) it
returns exactly the permissive fallback `{spec: None, status: 'done'}`;
`read_meta` is a total function into `MetaRec`, so it never raises. -/
theorem c8_read_meta_fallback (f : SidecarFile) :
    (∀ m, f = .parsed m → read_meta f = m) ∧
    (f = .missing ∨ f = .malformed → read_meta f = { spec := none, status := .done }) := by
  constructor
  · rintro m rfl
    rfl
  · rintro (rfl | rfl) <;> rfl

/-- Witness for C8 at the three concrete sidecar states. -/
theorem c8_witness :
    read_meta .malformed = { spec := none, status := .done } ∧
    read_meta .missing = { spec := none, status := .done } ∧
    read_meta (.parsed { spec := some stoppedSpec, status := .running }) =
      { spec := some stoppedSpec, status := .running } :=
  ⟨(c8_read_meta_fallback .malformed).2 (Or.inr rfl),
   (c8_read_meta_fallback .missing).2 (Or.inl rfl),
   (c8_read_meta_fallback _).1 _ rfl⟩

/-- Claim C9: when `extend` creates a new array container, the trailing
shape is fixed from the first appended batch and the storage block size
in leading-dimension rows is `ceil(4096 / product(trailing_dims))` — the
least row count `c` with `c * product ≥ 4096`, computed in exact integer
arithmetic. -/
theorem c9_fresh_chunking (a : Art) (key : Name) (r : NDArr)
    (hsuf : pyHasSuffix key = false) (habs : lookupA a key = none)
    (hp : 0 < listProd r.trail) :
    ∃ a', extend a key (.arr r) = .ok a' ∧
      lookupA a' key = some (.h5
        { trail := r.trail, rows := r.rows,
          chunkRows := some (rowsPerBlock (listProd r.trail)) }) ∧
      2 ^ 12 ≤ rowsPerBlock (listProd r.trail) * listProd r.trail ∧
      ∀ m, 2 ^ 12 ≤ m * listProd r.trail → rowsPerBlock (listProd r.trail) ≤ m := by
  have hp' : listProd r.trail ≠ 0 := Nat.pos_iff_ne_zero.mp hp
  refine ⟨putA a key (.h5
      { trail := r.trail, rows := r.rows,
        chunkRows := some (rowsPerBlock (listProd r.trail)) }), ?_,
    lookupA_putA_self _ _ _, (rowsPerBlock_spec _ hp).1, (rowsPerBlock_spec _ hp).2⟩
  simp [extend, extendGo, hsuf, habs, exend_h5, hp', Except.map]

/-- Witness for C9: trailing shape `[3]` gives block size
`ceil(4096 / 3) = 1366`. -/
theorem c9_witness :
    ∃ a', extend [] ['m'] (.arr { trail := [3], rows := [[1, 2, 3]] }) = .ok a' ∧
      lookupA a' ['m'] = some (.h5
        { trail := [3], rows := [[1, 2, 3]], chunkRows := some 1366 }) ∧
      2 ^ 12 ≤ 1366 * 3 ∧ ∀ m, 2 ^ 12 ≤ m * 3 → 1366 ≤ m := by
  exact c9_fresh_chunking [] ['m'] { trail := [3], rows := [[1, 2, 3]] }
    (by decide) rfl (by decide)

/-- Claim C10: `extend` uses its key verbatim while `get`/`set`/`delete`
first rewrite the `"__"` marker to `"."`, so every key containing the
marker denotes a different on-disk path under `extend` than under
`set`/`get`; and since such a marker key has no extension, the
external-file branch of `extend` rejects it with `AssertionError`. -/
theorem c10_extend_verbatim (key : Name) (hd : containsDunder key = true) :
    replaceDunder key ≠ key ∧
    (pyHasSuffix key = false → ∀ (a : Art) (bs : List Nat),
      extend a key (.fileRef bs) = .error .assertionError) := by
  constructor
  · intro he
    have := replaceDunder_length_lt key hd
    rw [he] at this
    omega
  · intro hsuf a bs
    simp [extend, extendGo, hsuf]

/-- Witness for C10 at the marker key `n__e`. -/
theorem c10_witness :
    containsDunder ['n', '_', '_', 'e'] = true ∧
    pyHasSuffix ['n', '_', '_', 'e'] = false ∧
    replaceDunder ['n', '_', '_', 'e'] ≠ ['n', '_', '_', 'e'] ∧
    extend [] ['n', '_', '_', 'e'] (.fileRef [9]) = .error .assertionError := by
  refine ⟨by decide, by decide, ?_, ?_⟩
  · exact (c10_extend_verbatim ['n', '_', '_', 'e'] (by decide)).1
  · exact (c10_extend_verbatim ['n', '_', '_', 'e'] (by decide)).2 (by decide) [] [9]

end Artisan
